import Mathlib

/-!
# Verification of the OpenAI content-generator adapter

Shallow embedding of `packages/core/src/core/openaiContentGenerator.ts`
(the current revision of the file: the one whose Response Normalizer maps
`stop / length / content_filter` to `STOP / MAX_TOKENS / SAFETY`, whose
Message Translator accepts the full `ContentListUnion`, and whose
`embedContent` returns an `embeddings` list).

JavaScript conventions captured here:
* an optional / nullable field is an `Option`;
* the truthiness test `part.text` on a string is `text ≠ ""`;
* `xs[0]?` is `List.head?` followed by `Option.bind`;
* `x || ''` on an optional string is `Option.getD _ ""` (a present empty
  string and an absent one both yield `""`, exactly as `||` does);
* `n || 0` on an optional counter is `Option.getD _ 0`;
* `arr.join(sep)` is `String.intercalate sep`.
-/

namespace OpenAIGen

/-- A `PartUnion` element: either a bare string, or a `Part` object whose
`text` field may be absent (`obj none`) or present with some value. -/
inductive PartU where
  | str : String → PartU
  | obj : Option String → PartU
deriving DecidableEq, Repr

/-- A Gemini `Content` (a Turn): a role together with an optional list of
parts (`contents.parts` may be `undefined`). -/
structure Content where
  role : String
  parts? : Option (List PartU)
deriving DecidableEq, Repr

/-- One provider chat message, as in the local
`ChatCompletionMessageParam` alias (role is `system`, `user` or
`assistant`). -/
structure Msg where
  role : String
  content : String
deriving DecidableEq, Repr

/-- The per-part extraction step of the translator loops
(`openaiContentGenerator.ts`, the `for (const part of content.parts)`
bodies): a bare string is taken as-is (even when empty, since
`typeof part === 'string'` alone guards it), an object part contributes
its `text` only when the field is present and truthy (non-empty). -/
def partText? (p : PartU) : Option String :=
  match p with
  | .str s => some s
  | .obj (some t) => if t = "" then none else some t
  | .obj none => none

/-- The `textParts` list collected by the translator loops. -/
def extractTexts (ps : List PartU) : List String :=
  ps.filterMap partText?

/-- The body of the `for (const content of contents)` loop of
`convertToOpenAIMessages` for one `Content`: a `user` turn with at least
one extracted text becomes one `user` message (texts newline-joined), a
`model` turn likewise becomes one `assistant` message, anything else —
missing `parts`, no extracted text, any other role — produces nothing. -/
def msgOfContent (c : Content) : List Msg :=
  match c.parts? with
  | none => []
  | some ps =>
    if c.role = "user" then
      let ts := extractTexts ps
      if ts.isEmpty then [] else [⟨"user", String.intercalate "\n" ts⟩]
    else if c.role = "model" then
      let ts := extractTexts ps
      if ts.isEmpty then [] else [⟨"assistant", String.intercalate "\n" ts⟩]
    else []

/-- The translator loop over a normalized `Content[]`, accumulating the
messages in order. -/
def convertContents : List Content → List Msg
  | [] => []
  | c :: rest => msgOfContent c ++ convertContents rest

/-- The `ContentListUnion` argument of `convertToOpenAIMessages`:
`Content | Content[] | PartUnion | PartUnion[]` where
`PartUnion = Part | string`.  A bare string is its own case (caught first
by `typeof contentsUnion === 'string'`); a single non-array object either
has a `role` (a `Content`) or is a `Part` (`onePart`, with its optional
`text` field). -/
inductive ContentListUnion where
  | str : String → ContentListUnion
  | content : Content → ContentListUnion
  | onePart : Option String → ContentListUnion
  | contents : List Content → ContentListUnion
  | parts : List PartU → ContentListUnion
deriving DecidableEq, Repr

/-- JavaScript string coercion applied by
`(contentsUnion as string[]).join('\n')` when an element of the array is
not actually a string. -/
def partToJsString : PartU → String
  | .str s => s
  | .obj _ => "[object Object]"

/-- The function `convertToOpenAIMessages` (current revision): dispatch on the input
shape, then run the translator loop.  An array whose first element is a
string is joined directly into one `user` message; an array whose first
element carries a `role` is a `Content[]`; any other array (including the
empty one) is wrapped as the parts of a single `user` turn; a single
`Content` or `Part` is wrapped likewise. -/
def convertToOpenAIMessages (u : ContentListUnion) : List Msg :=
  match u with
  | .str s => [⟨"user", s⟩]
  | .content c => convertContents [c]
  | .onePart t? => convertContents [⟨"user", some [PartU.obj t?]⟩]
  | .contents cs =>
    match cs with
    | [] => convertContents [⟨"user", some []⟩]
    | _ :: _ => convertContents cs
  | .parts ps =>
    match ps with
    | .str _ :: _ => [⟨"user", String.intercalate "\n" (ps.map partToJsString)⟩]
    | _ => convertContents [⟨"user", some ps⟩]

/-- The `systemInstruction` union (`ContentUnion`): a plain string, a
`Part` object (`'text' in si` decides whether its `text` field exists),
an array of `PartUnion`, or a full `Content`. -/
inductive SystemInstruction where
  | str : String → SystemInstruction
  | part : Option String → SystemInstruction
  | parts : List PartU → SystemInstruction
  | content : Content → SystemInstruction
deriving DecidableEq, Repr

/-- The `systemText` resolution chain shared verbatim by
`generateContent` and `generateContentStream`: a string is taken as-is;
an object with a `text` field yields that field unchecked; an array is
newline-joined over its extracted texts; an object with `parts` is
newline-joined over the extracted texts of those parts (empty when
`parts` is `undefined`); an object matching no branch leaves `systemText`
at `''`. -/
def resolveSystemText : SystemInstruction → String
  | .str s => s
  | .part t? =>
    match t? with
    | some t => t
    | none => ""
  | .parts ps => String.intercalate "\n" (extractTexts ps)
  | .content c => String.intercalate "\n" (extractTexts (c.parts?.getD []))

/-- JavaScript truthiness of the `systemInstruction` value itself, as
tested by `if (request.config?.systemInstruction)`: only the empty
string among the union's shapes is falsy (objects and arrays are always
truthy). -/
def siTruthy : SystemInstruction → Bool
  | .str s => !(s = "")
  | _ => true

/-- The provider message list built by `generateContent` and
`generateContentStream` before the network call: translate the contents,
then, when a truthy `systemInstruction` resolves to non-empty text,
`unshift` one `system` message carrying it. -/
def buildMessages (contents : ContentListUnion)
    (si? : Option SystemInstruction) : List Msg :=
  let messages := convertToOpenAIMessages contents
  match si? with
  | none => messages
  | some si =>
    if siTruthy si then
      let systemText := resolveSystemText si
      if systemText = "" then messages
      else ⟨"system", systemText⟩ :: messages
    else messages

/-- The Gemini `FinishReason` values this adapter produces. -/
inductive FinishReason where
  | STOP | MAX_TOKENS | SAFETY | OTHER
deriving DecidableEq, Repr

/-- The finish-reason mapping chain, textually identical in
`convertToGeminiResponse` and in the chunk loop of
`generateContentStream`: `let finishReason = FinishReason.OTHER` followed
by the three `if / else if` comparisons against `'stop'`, `'length'` and
`'content_filter'`.  The argument is `choice?.finish_reason` (absent when
there is no first choice or the field is `null`). -/
def mapFinishReason (fr? : Option String) : FinishReason :=
  if fr? = some "stop" then .STOP
  else if fr? = some "length" then .MAX_TOKENS
  else if fr? = some "content_filter" then .SAFETY
  else .OTHER

/-- One candidate part of a Gemini response (always `{ text }` here). -/
structure CandPart where
  text : String
deriving DecidableEq, Repr

/-- The `content` of a Gemini candidate. -/
structure CandContent where
  role : String
  parts : List CandPart
deriving DecidableEq, Repr

/-- A Gemini candidate as this adapter builds it. -/
structure Candidate where
  content : CandContent
  finishReason : FinishReason
  index : Nat
deriving DecidableEq, Repr

/-- The `usageMetadata` as this adapter builds it: all three counters are
always assigned. -/
structure UsageMetadata where
  promptTokenCount : Nat
  candidatesTokenCount : Nat
  totalTokenCount : Nat
deriving DecidableEq, Repr

/-- The canonical response the adapter returns. -/
structure GenerateContentResponse where
  candidates : List Candidate
  usageMetadata : UsageMetadata
deriving DecidableEq, Repr

/-- The `message` of an OpenAI chat-completion choice (`content` may be
`null`). -/
structure ChatMessage where
  content? : Option String
deriving DecidableEq, Repr

/-- An OpenAI chat-completion choice. -/
structure ChatChoice where
  message? : Option ChatMessage
  finish_reason? : Option String
deriving DecidableEq, Repr

/-- OpenAI usage counters; each may be absent. -/
structure ChatUsage where
  prompt_tokens? : Option Nat
  completion_tokens? : Option Nat
  total_tokens? : Option Nat
deriving DecidableEq, Repr

/-- An OpenAI chat completion: a choices array and optional usage. -/
structure ChatCompletion where
  choices : List ChatChoice
  usage? : Option ChatUsage
deriving DecidableEq, Repr

/-- The value `choice?.message?.content || ''` for the first choice. -/
def firstChoiceText (r : ChatCompletion) : String :=
  (((r.choices.head?.bind (·.message?)).bind (·.content?)).getD "")

/-- The normalizer `convertToGeminiResponse`: one candidate at index 0 with role
`model` and a single text part holding the first choice's content, the
mapped finish reason, and zero-defaulted usage counters. -/
def convertToGeminiResponse (r : ChatCompletion) : GenerateContentResponse :=
  { candidates :=
      [{ content := { role := "model", parts := [⟨firstChoiceText r⟩] },
         finishReason := mapFinishReason (r.choices.head?.bind (·.finish_reason?)),
         index := 0 }],
    usageMetadata :=
      { promptTokenCount := (r.usage?.bind (·.prompt_tokens?)).getD 0,
        candidatesTokenCount := (r.usage?.bind (·.completion_tokens?)).getD 0,
        totalTokenCount := (r.usage?.bind (·.total_tokens?)).getD 0 } }

/-- The `delta` of a streaming chunk choice (`content` may be absent or
`null`). -/
structure ChunkDelta where
  content? : Option String
deriving DecidableEq, Repr

/-- One choice of a streaming chunk. -/
structure ChunkChoice where
  delta? : Option ChunkDelta
  finish_reason? : Option String
deriving DecidableEq, Repr

/-- One streaming chunk as received from the provider. -/
structure ChatChunk where
  choices : List ChunkChoice
deriving DecidableEq, Repr

/-- The value `chunk.choices[0]?.delta?.content || ''`. -/
def chunkDelta (ch : ChatChunk) : String :=
  (((ch.choices.head?.bind (·.delta?)).bind (·.content?)).getD "")

/-- The canonical response emitted for one chunk once `accumulatedText`
holds `t`: one `model` candidate at index 0 whose single part carries the
whole accumulated text, and zeroed usage. -/
def mkStreamResponse (t : String) (fr : FinishReason) : GenerateContentResponse :=
  { candidates :=
      [{ content := { role := "model", parts := [⟨t⟩] },
         finishReason := fr, index := 0 }],
    usageMetadata := ⟨0, 0, 0⟩ }

/-- The `for await (const chunk of stream)` loop of
`generateContentStream`: append the chunk's delta to the accumulator,
map its finish signal, emit a response carrying the accumulated text. -/
def streamLoop (accText : String) : List ChatChunk → List GenerateContentResponse
  | [] => []
  | ch :: rest =>
    let t := accText ++ chunkDelta ch
    mkStreamResponse t (mapFinishReason (ch.choices.head?.bind (·.finish_reason?)))
      :: streamLoop t rest

/-- The full sequence of responses `generateContentStream` yields for a
finite chunk sequence (`accumulatedText` starts empty). -/
def generateContentStreamResponses (chunks : List ChatChunk) :
    List GenerateContentResponse :=
  streamLoop "" chunks

/-- The operation `messages.map((m) => m.content).join('')` — concatenation without a
separator. -/
def joinAll : List String → String
  | [] => ""
  | s :: rest => s ++ joinAll rest

/-- The estimator `countTokens`: translate the contents, concatenate every message
body with no separator, and take `Math.ceil(length / 4)` (on naturals,
`(len + 3) / 4`). -/
def countTokens (contents : ContentListUnion) : Nat :=
  let messages := convertToOpenAIMessages contents
  let totalText := joinAll (messages.map (·.content))
  (totalText.length + 3) / 4

/-- One item of the OpenAI embeddings response (`data[i]`); the numeric
vector is kept abstract as a list of scalars, which the adapter never
inspects. -/
structure EmbeddingItem where
  embedding : List Int
deriving DecidableEq, Repr

/-- The OpenAI embeddings-create response. -/
structure EmbeddingsCreateResponse where
  data : List EmbeddingItem
deriving DecidableEq, Repr

/-- One canonical embedding (`{ values }`). -/
structure ContentEmbedding where
  values : List Int
deriving DecidableEq, Repr

/-- The canonical `embedContent` result (`{ embeddings: [...] }`). -/
structure EmbedContentResponse where
  embeddings : List ContentEmbedding
deriving DecidableEq, Repr

/-- The input text `embedContent` sends to the provider:
`messages.map((m) => m.content).join('\n')` over the translated
contents. -/
def embedInputText (contents : ContentListUnion) : String :=
  String.intercalate "\n" ((convertToOpenAIMessages contents).map (·.content))

/-- The result-shaping step of `embedContent`:
`{ embeddings: [ { values: response.data[0].embedding } ] }`.  Accessing
`data[0].embedding` on an empty `data` array throws in JavaScript, so an
empty array yields `none`. -/
def embedContentResult (resp : EmbeddingsCreateResponse) :
    Option EmbedContentResponse :=
  match resp.data.head? with
  | none => none
  | some item => some { embeddings := [{ values := item.embedding }] }

/-- The operation `embedContent` end to end, with the provider call abstracted as a
function from the input text to the provider response. -/
def embedContent (contents : ContentListUnion)
    (provider : String → EmbeddingsCreateResponse) :
    Option EmbedContentResponse :=
  embedContentResult (provider (embedInputText contents))

/-! ## Spec-side definitions (for refinement statements) -/

/-- The spec's closed finish-reason table (§4.3): `stop → STOP`,
`length → MAX_TOKENS`, `content_filter → SAFETY`, anything else,
including an absent signal, `→ OTHER`.  Stated as a table (a `match`)
to compare with the source's `if / else if` chain. -/
def finishTableSpec (fr? : Option String) : FinishReason :=
  match fr? with
  | some "stop" => .STOP
  | some "length" => .MAX_TOKENS
  | some "content_filter" => .SAFETY
  | _ => .OTHER

/-- The spec's per-Turn translation rule (§4.2): a Turn with no
text-bearing part yields no message; a `user` Turn yields one `user`
message with the newline-join of its texts; a `model` Turn yields one
`assistant` message likewise. -/
def specTurnMessages (c : Content) : List Msg :=
  let ts := extractTexts (c.parts?.getD [])
  if ts = [] then []
  else if c.role = "user" then [⟨"user", String.intercalate "\n" ts⟩]
  else if c.role = "model" then [⟨"assistant", String.intercalate "\n" ts⟩]
  else []

/-- Total character count of the translated message bodies concatenated
without separator (the quantity `countTokens` estimates from). -/
def translatedLength (contents : ContentListUnion) : Nat :=
  (joinAll ((convertToOpenAIMessages contents).map (·.content))).length

/-! ## Helper lemmas -/

theorem mapFinishReason_eq_table (fr? : Option String) :
    mapFinishReason fr? = finishTableSpec fr? := by
  unfold mapFinishReason finishTableSpec
  rcases fr? with _ | s
  · rfl
  · by_cases h1 : s = "stop"
    · subst h1; rfl
    · by_cases h2 : s = "length"
      · subst h2; rfl
      · by_cases h3 : s = "content_filter"
        · subst h3; rfl
        · simp [h1, h2, h3]

theorem streamLoop_get?_finish (acc : String) (chunks : List ChatChunk) (i : Nat) :
    ((streamLoop acc chunks).get? i).map
        (fun resp => resp.candidates.map (·.finishReason))
      = (chunks.get? i).map
          (fun ch => [mapFinishReason (ch.choices.head?.bind (·.finish_reason?))]) := by
  induction chunks generalizing acc i with
  | nil => simp [streamLoop]
  | cons ch rest ih =>
    cases i with
    | zero => simp [streamLoop, mkStreamResponse]
    | succ j => simpa [streamLoop] using ih (acc ++ chunkDelta ch) j

theorem streamLoop_get?_text (acc : String) (chunks : List ChatChunk) (i : Nat) :
    ((streamLoop acc chunks).get? i).map
        (fun resp => resp.candidates.map (fun c => c.content.parts.map (·.text)))
      = if i < chunks.length then
          some [[acc ++ joinAll ((chunks.map chunkDelta).take (i + 1))]]
        else none := by
  induction chunks generalizing acc i with
  | nil => simp [streamLoop]
  | cons ch rest ih =>
    cases i with
    | zero =>
      simp [streamLoop, mkStreamResponse, joinAll]
    | succ j =>
      have h := ih (acc ++ chunkDelta ch) j
      simp only [streamLoop, List.get?_cons_succ, List.length_cons,
        Nat.succ_lt_succ_iff, List.map_cons, List.take_succ_cons, joinAll] at h ⊢
      rw [h]
      by_cases hj : j < rest.length
      · simp [hj, String.append_assoc]
      · simp [hj]

theorem msgOfContent_eq_spec (c : Content) :
    msgOfContent c = specTurnMessages c := by
  rcases c with ⟨role, _ | ps⟩
  · simp [msgOfContent, specTurnMessages, extractTexts]
  · simp only [msgOfContent, specTurnMessages, Option.getD_some]
    by_cases hts : extractTexts ps = [] <;>
      by_cases hu : role = "user" <;>
        by_cases hm : role = "model" <;>
          simp [hts, hu, hm, List.isEmpty_iff]

theorem convertContents_eq_bind (cs : List Content) :
    convertContents cs = cs.flatMap specTurnMessages := by
  induction cs with
  | nil => rfl
  | cons c rest ih => simp [convertContents, ih, msgOfContent_eq_spec]

theorem convertContents_append (xs ys : List Content) :
    convertContents (xs ++ ys) = convertContents xs ++ convertContents ys := by
  induction xs with
  | nil => rfl
  | cons c rest ih => simp [convertContents, ih]

theorem msgOfContent_role (c : Content) (m : Msg) (hm : m ∈ msgOfContent c) :
    m.role = "user" ∨ m.role = "assistant" := by
  rcases c with ⟨role, _ | ps⟩
  · simp [msgOfContent] at hm
  · simp only [msgOfContent] at hm
    by_cases hu : role = "user"
    · rw [if_pos hu] at hm
      by_cases hts : (extractTexts ps).isEmpty
      · simp [hts] at hm
      · rw [if_neg hts] at hm
        left
        rw [List.mem_singleton] at hm
        simp [hm]
    · rw [if_neg hu] at hm
      by_cases hmo : role = "model"
      · rw [if_pos hmo] at hm
        by_cases hts : (extractTexts ps).isEmpty
        · simp [hts] at hm
        · rw [if_neg hts] at hm
          right
          rw [List.mem_singleton] at hm
          simp [hm]
      · rw [if_neg hmo] at hm
        simp at hm

theorem msgOfContent_of_no_text (c : Content)
    (h : extractTexts (c.parts?.getD []) = []) : msgOfContent c = [] := by
  rw [msgOfContent_eq_spec, specTurnMessages]
  simp [h]

theorem convertContents_mem (cs : List Content) (m : Msg)
    (hm : m ∈ convertContents cs) :
    ∃ c ∈ cs, m ∈ msgOfContent c ∧ extractTexts (c.parts?.getD []) ≠ [] := by
  induction cs with
  | nil => simp [convertContents] at hm
  | cons c rest ih =>
    simp only [convertContents, List.mem_append] at hm
    rcases hm with hm | hm
    · refine ⟨c, List.mem_cons_self _ _, hm, ?_⟩
      intro hempty
      rw [msgOfContent_of_no_text c hempty] at hm
      exact (List.not_mem_nil m) hm
    · obtain ⟨c', hc', hmem, hne⟩ := ih hm
      exact ⟨c', List.mem_cons_of_mem _ hc', hmem, hne⟩

theorem convertToOpenAIMessages_role (u : ContentListUnion) (m : Msg)
    (hm : m ∈ convertToOpenAIMessages u) :
    m.role = "user" ∨ m.role = "assistant" := by
  rcases u with s | c | t? | cs | ps
  · simp [convertToOpenAIMessages] at hm
    simp [hm]
  · simp only [convertToOpenAIMessages, convertContents, List.append_nil] at hm
    exact msgOfContent_role c m hm
  · simp only [convertToOpenAIMessages, convertContents, List.append_nil] at hm
    exact msgOfContent_role _ m hm
  · rcases cs with _ | ⟨c, rest⟩
    · simp only [convertToOpenAIMessages, convertContents, List.append_nil] at hm
      exact msgOfContent_role _ m hm
    · simp only [convertToOpenAIMessages] at hm
      obtain ⟨c', _, hmem, _⟩ := convertContents_mem _ m hm
      exact msgOfContent_role c' m hmem
  · rcases ps with _ | ⟨p, rest⟩
    · simp only [convertToOpenAIMessages, convertContents, List.append_nil] at hm
      exact msgOfContent_role _ m hm
    · rcases p with s | t?
      · simp [convertToOpenAIMessages] at hm
        simp [hm]
      · simp only [convertToOpenAIMessages, convertContents, List.append_nil] at hm
        exact msgOfContent_role _ m hm

theorem siTruthy_of_resolve_ne (si : SystemInstruction)
    (h : resolveSystemText si ≠ "") : siTruthy si = true := by
  rcases si with s | t? | ps | c
  · simp only [resolveSystemText] at h
    simp [siTruthy, h]
  · rfl
  · rfl
  · rfl

theorem countP_system_zero (ms : List Msg)
    (h : ∀ m ∈ ms, m.role ≠ "system") :
    ms.countP (fun m => m.role == "system") = 0 := by
  rw [List.countP_eq_zero]
  intro m hm
  simpa using h m hm

/-! ## Claim theorems -/

/-- C1: both the Response Normalizer (`convertToGeminiResponse`) and the
per-chunk mapping inside `generateContentStream` map every provider
finish signal via the closed table `stop → STOP`, `length → MAX_TOKENS`,
`content_filter → SAFETY`, anything else (including absent) `→ OTHER`;
the mapping chain agrees with that table on every input, so no fifth
outcome is possible and no signal is rejected. -/
theorem finish_reason_closed_table (r : ChatCompletion)
    (chunks : List ChatChunk) (i : Nat) :
    ((convertToGeminiResponse r).candidates.map (·.finishReason)
        = [finishTableSpec (r.choices.head?.bind (·.finish_reason?))])
    ∧ (((generateContentStreamResponses chunks).get? i).map
          (fun resp => resp.candidates.map (·.finishReason))
        = (chunks.get? i).map
            (fun ch => [finishTableSpec (ch.choices.head?.bind (·.finish_reason?))]))
    ∧ (∀ fr? : Option String, mapFinishReason fr? = finishTableSpec fr?) := by
  refine ⟨?_, ?_, mapFinishReason_eq_table⟩
  · simp [convertToGeminiResponse, mapFinishReason_eq_table]
  · rw [generateContentStreamResponses, streamLoop_get?_finish]
    simp [mapFinishReason_eq_table]

/-- C3: the Message Translator turns each `user` Turn with at least one
text part into exactly one `user` message holding the newline-join of
its text parts, each such `model` Turn into one `assistant` message,
drops Turns without any text-bearing part without error, and emits
nothing else: the translation of a conversation is the per-Turn spec rule
flat-mapped over it, and every emitted message stems from a Turn with at
least one text part. -/
theorem translator_per_turn (cs : List Content) (c : Content) :
    convertContents cs = cs.flatMap specTurnMessages
    ∧ (c.role = "user" → extractTexts (c.parts?.getD []) ≠ [] →
        msgOfContent c
          = [⟨"user", String.intercalate "\n" (extractTexts (c.parts?.getD []))⟩])
    ∧ (c.role = "model" → extractTexts (c.parts?.getD []) ≠ [] →
        msgOfContent c
          = [⟨"assistant", String.intercalate "\n" (extractTexts (c.parts?.getD []))⟩])
    ∧ (extractTexts (c.parts?.getD []) = [] → msgOfContent c = [])
    ∧ (∀ m ∈ convertContents cs,
        ∃ c' ∈ cs, m ∈ msgOfContent c' ∧ extractTexts (c'.parts?.getD []) ≠ []) := by
  refine ⟨convertContents_eq_bind cs, ?_, ?_, msgOfContent_of_no_text c,
    fun m hm => convertContents_mem cs m hm⟩
  · intro hu hts
    rw [msgOfContent_eq_spec, specTurnMessages]
    simp [hts, hu]
  · intro hmo hts
    rw [msgOfContent_eq_spec, specTurnMessages]
    have hu : c.role ≠ "user" := by rw [hmo]; decide
    simp [hts, hu, hmo]

/-- C4: the four legal encodings of `systemInstruction` that denote the
same text `t` — plain string, single Part, list of Parts, full Turn —
all resolve to `t`; whenever a supplied instruction resolves to
non-empty text, `generateContent` and `generateContentStream` place
exactly one `system` message carrying it at the head of the provider
message list (the translator itself never emits a `system` role);
when it resolves to empty, no system message is inserted. -/
theorem system_instruction_normalization (t : String)
    (contents : ContentListUnion) (si : SystemInstruction) :
    (resolveSystemText (.str t) = t
     ∧ resolveSystemText (.part (some t)) = t
     ∧ resolveSystemText (.parts [PartU.obj (some t)]) = t
     ∧ resolveSystemText (.content ⟨"user", some [PartU.obj (some t)]⟩) = t)
    ∧ (resolveSystemText si ≠ "" →
        buildMessages contents (some si)
            = ⟨"system", resolveSystemText si⟩ :: convertToOpenAIMessages contents
        ∧ (buildMessages contents (some si)).countP (fun m => m.role == "system") = 1
        ∧ (buildMessages contents (some si)).head?
            = some ⟨"system", resolveSystemText si⟩)
    ∧ (resolveSystemText si = "" →
        buildMessages contents (some si) = convertToOpenAIMessages contents)
    ∧ buildMessages contents none = convertToOpenAIMessages contents
    ∧ (∀ m ∈ convertToOpenAIMessages contents, m.role ≠ "system") := by
  have hnosys : ∀ m ∈ convertToOpenAIMessages contents, m.role ≠ "system" := by
    intro m hm
    rcases convertToOpenAIMessages_role contents m hm with h | h <;> simp [h]
  refine ⟨⟨rfl, rfl, ?_, ?_⟩, ?_, ?_, rfl, hnosys⟩
  · by_cases ht : t = ""
    · subst ht; rfl
    · simp only [resolveSystemText, extractTexts, partText?, ht,
        List.filterMap_cons, List.filterMap_nil, if_neg ht]
      rfl
  · by_cases ht : t = ""
    · subst ht; rfl
    · simp only [resolveSystemText, extractTexts, partText?, ht,
        Option.getD_some, List.filterMap_cons, List.filterMap_nil, if_neg ht]
      rfl
  · intro hne
    have htru := siTruthy_of_resolve_ne si hne
    have hbuild : buildMessages contents (some si)
        = ⟨"system", resolveSystemText si⟩ :: convertToOpenAIMessages contents := by
      simp only [buildMessages]
      rw [htru, if_pos rfl, if_neg hne]
    refine ⟨hbuild, ?_, by rw [hbuild]; rfl⟩
    rw [hbuild, List.countP_cons]
    rw [countP_system_zero _ hnosys]
    simp
  · intro hempty
    simp only [buildMessages]
    by_cases htru : siTruthy si = true
    · rw [htru, if_pos rfl, if_pos hempty]
    · rw [if_neg ?_]
      simpa using htru

/-- C5: the Response Normalizer always returns exactly one candidate at
index 0 with role `model` and exactly one text part carrying the first
provider choice's message content (empty string when absent); the result
is unchanged when every choice past the first is discarded. -/
theorem normalizer_single_candidate (r : ChatCompletion) :
    (convertToGeminiResponse r).candidates.map (·.index) = [0]
    ∧ (convertToGeminiResponse r).candidates.map (·.content.role) = ["model"]
    ∧ (convertToGeminiResponse r).candidates.map (·.content.parts)
        = [[⟨firstChoiceText r⟩]]
    ∧ (∀ c m s, r.choices.head? = some c → c.message? = some m →
        m.content? = some s → firstChoiceText r = s)
    ∧ ((r.choices.head?.bind (·.message?)).bind (·.content?) = none →
        firstChoiceText r = "")
    ∧ convertToGeminiResponse r
        = convertToGeminiResponse ⟨r.choices.take 1, r.usage?⟩ := by
  have hhead : (r.choices.take 1).head? = r.choices.head? := by
    rcases r.choices with _ | ⟨c, rest⟩ <;> rfl
  refine ⟨rfl, rfl, rfl, ?_, ?_, ?_⟩
  · intro c m s hc hm hs
    simp [firstChoiceText, hc, hm, hs]
  · intro hnone
    simp [firstChoiceText, hnone]
  · simp [convertToGeminiResponse, firstChoiceText, hhead]

/-- C6: the normalized response always carries all three usage counters;
each equals the provider's value when present and 0 when the provider
omits the counter or the whole usage object. -/
theorem usage_counters_defaulted (r : ChatCompletion) :
    (∀ u, r.usage? = some u →
        (∀ n, u.prompt_tokens? = some n →
          (convertToGeminiResponse r).usageMetadata.promptTokenCount = n)
        ∧ (u.prompt_tokens? = none →
          (convertToGeminiResponse r).usageMetadata.promptTokenCount = 0)
        ∧ (∀ n, u.completion_tokens? = some n →
          (convertToGeminiResponse r).usageMetadata.candidatesTokenCount = n)
        ∧ (u.completion_tokens? = none →
          (convertToGeminiResponse r).usageMetadata.candidatesTokenCount = 0)
        ∧ (∀ n, u.total_tokens? = some n →
          (convertToGeminiResponse r).usageMetadata.totalTokenCount = n)
        ∧ (u.total_tokens? = none →
          (convertToGeminiResponse r).usageMetadata.totalTokenCount = 0))
    ∧ (r.usage? = none →
        (convertToGeminiResponse r).usageMetadata = ⟨0, 0, 0⟩) := by
  constructor
  · intro u hu
    refine ⟨?_, ?_, ?_, ?_, ?_, ?_⟩ <;>
      first
        | (intro n hn; simp [convertToGeminiResponse, hu, hn])
        | (intro hn; simp [convertToGeminiResponse, hu, hn])
  · intro hu
    simp [convertToGeminiResponse, hu]

/-- C7: `countTokens` returns `ceil(L / 4)` where `L` is the total
character count of the translated message bodies concatenated without
separator: the result is the least `k` with `L ≤ 4 k`, and the operation
is a total function on well-formed input. -/
theorem countTokens_ceil (contents : ContentListUnion) :
    translatedLength contents ≤ 4 * countTokens contents
    ∧ ∀ k, translatedLength contents ≤ 4 * k → countTokens contents ≤ k := by
  have h : countTokens contents = (translatedLength contents + 3) / 4 := rfl
  constructor
  · rw [h]; omega
  · intro k hk; rw [h]; omega

/-- C8: a bare-string conversation with no `systemInstruction` becomes
exactly one `user` message carrying that exact string and nothing else;
a non-empty array of plain strings becomes a single `user` message
joining them; a bare Part and an array of Parts are wrapped into one
`user` Turn before translation. -/
theorem bare_input_shapes (s : String) (ss : List String)
    (t? : Option String) (ts : List (Option String)) :
    buildMessages (.str s) none = [⟨"user", s⟩]
    ∧ (ss ≠ [] →
        convertToOpenAIMessages (.parts (ss.map PartU.str))
          = [⟨"user", String.intercalate "\n" ss⟩])
    ∧ convertToOpenAIMessages (.onePart t?)
        = convertContents [⟨"user", some [PartU.obj t?]⟩]
    ∧ convertToOpenAIMessages (.parts (ts.map PartU.obj))
        = convertContents [⟨"user", some (ts.map PartU.obj)⟩] := by
  refine ⟨rfl, ?_, rfl, ?_⟩
  · intro hne
    rcases ss with _ | ⟨a, rest⟩
    · exact absurd rfl hne
    · simp only [convertToOpenAIMessages, List.map_cons]
      have : (rest.map PartU.str).map partToJsString = rest := by
        rw [List.map_map]
        exact List.map_id'' (fun x => rfl) rest
      simp [partToJsString, this]
  · rcases ts with _ | ⟨a, rest⟩
    · rfl
    · rfl

/-- C9: whatever the input content (however many text parts it holds),
`embedContent` wraps the provider's first returned vector as the sole
element of the `embeddings` list — the result always has exactly one
embedding, holding the provider's numbers as its `values`. -/
theorem embed_single_vector (contents : ContentListUnion)
    (provider : String → EmbeddingsCreateResponse)
    (v : EmbeddingItem) (rest : List EmbeddingItem) :
    ((provider (embedInputText contents)).data = v :: rest →
      embedContent contents provider
        = some { embeddings := [{ values := v.embedding }] })
    ∧ (∀ out, embedContent contents provider = some out →
        out.embeddings = [{ values :=
          ((provider (embedInputText contents)).data.head?.map
            (·.embedding)).getD [] }]) := by
  constructor
  · intro hdata
    simp [embedContent, embedContentResult, hdata]
  · intro out hout
    unfold embedContent embedContentResult at hout
    rcases hdata : (provider (embedInputText contents)).data with _ | ⟨v', rest'⟩
    · rw [hdata] at hout
      simp at hout
    · rw [hdata] at hout
      simp only [List.head?_cons, Option.some.injEq] at hout
      simp [← hout, hdata]

theorem extractTexts_drop_empty (l r : List PartU) :
    extractTexts (l ++ PartU.obj (some "") :: r) = extractTexts (l ++ r) := by
  simp [extractTexts, List.filterMap_append, List.filterMap_cons, partText?]

/-- C10: a Part whose `text` is the empty string is invisible to the
translator and the `systemInstruction` resolver: deleting it changes no
extracted text list, no per-Turn message, no resolved system text, and
not the text `embedContent` sends to the provider; a Turn all of whose
parts carry empty text yields no message at all. -/
theorem empty_text_part_ignored (l r : List PartU) (role : String)
    (parts : List PartU) (cs1 cs2 : List Content) :
    extractTexts (l ++ PartU.obj (some "") :: r) = extractTexts (l ++ r)
    ∧ msgOfContent ⟨role, some (l ++ PartU.obj (some "") :: r)⟩
        = msgOfContent ⟨role, some (l ++ r)⟩
    ∧ ((∀ p ∈ parts, p = PartU.obj (some "")) →
        msgOfContent ⟨role, some parts⟩ = [])
    ∧ resolveSystemText (.parts (l ++ PartU.obj (some "") :: r))
        = resolveSystemText (.parts (l ++ r))
    ∧ resolveSystemText (.content ⟨role, some (l ++ PartU.obj (some "") :: r)⟩)
        = resolveSystemText (.content ⟨role, some (l ++ r)⟩)
    ∧ embedInputText
          (.contents (cs1 ++ ⟨role, some (l ++ PartU.obj (some "") :: r)⟩ :: cs2))
        = embedInputText (.contents (cs1 ++ ⟨role, some (l ++ r)⟩ :: cs2)) := by
  have hkey := extractTexts_drop_empty l r
  have hmsg : msgOfContent ⟨role, some (l ++ PartU.obj (some "") :: r)⟩
      = msgOfContent ⟨role, some (l ++ r)⟩ := by
    simp only [msgOfContent, hkey]
  refine ⟨hkey, hmsg, ?_, ?_, ?_, ?_⟩
  · intro hall
    apply msgOfContent_of_no_text
    simp only [Option.getD_some]
    rw [extractTexts, List.filterMap_eq_nil_iff]
    intro p hp
    rw [hall p hp]
    rfl
  · simp only [resolveSystemText, hkey]
  · simp only [resolveSystemText, Option.getD_some, hkey]
  · have hconv : ∀ c : Content,
        convertToOpenAIMessages (.contents (cs1 ++ c :: cs2))
          = convertContents (cs1 ++ c :: cs2) := by
      intro c
      rcases cs1 with _ | ⟨c1, rest1⟩ <;> rfl
    unfold embedInputText
    rw [hconv, hconv, convertContents_append, convertContents_append]
    simp only [convertContents, hmsg]

/-- C2: for a stream of chunks with deltas `d1..dn`, the `i`-th response
yielded by `generateContentStream` carries, as its sole candidate text,
the concatenation of `d1` through `d(i+1)` — the whole accumulated text
so far, never a bare delta. -/
theorem stream_text_is_accumulated (chunks : List ChatChunk) (i : Nat) :
    ((generateContentStreamResponses chunks).get? i).map
        (fun resp => resp.candidates.map (fun c => c.content.parts.map (·.text)))
      = if i < chunks.length then
          some [[joinAll ((chunks.map chunkDelta).take (i + 1))]]
        else none := by
  have h := streamLoop_get?_text "" chunks i
  simpa [generateContentStreamResponses] using h

/-! ## Witnesses -/

/-- Witness for C3: a `user` Turn with texts `Hi` and `there` becomes one
`user` message `"Hi\nthere"`. -/
theorem translator_per_turn_witness :
    msgOfContent ⟨"user", some [PartU.obj (some "Hi"), PartU.str "there"]⟩
      = [⟨"user", "Hi\nthere"⟩] := by
  have h := (translator_per_turn []
      ⟨"user", some [PartU.obj (some "Hi"), PartU.str "there"]⟩).2.1 rfl (by decide)
  exact h.trans (by decide)

/-- Witness for C4: instruction `Be terse` over conversation `hi` yields
the system message first. -/
theorem system_instruction_normalization_witness :
    buildMessages (.str "hi") (some (.str "Be terse"))
      = [⟨"system", "Be terse"⟩, ⟨"user", "hi"⟩] := by
  have h := (system_instruction_normalization "x" (.str "hi")
      (.str "Be terse")).2.1 (by decide)
  exact h.1.trans (by decide)

/-- Witness for C5: a provider message `Hi` is extracted as the candidate
text. -/
theorem normalizer_single_candidate_witness :
    firstChoiceText ⟨[⟨some ⟨some "Hi"⟩, some "stop"⟩], none⟩ = "Hi" :=
  (normalizer_single_candidate
    ⟨[⟨some ⟨some "Hi"⟩, some "stop"⟩], none⟩).2.2.2.1 _ _ _ rfl rfl rfl

/-- Witness for C6: a present prompt counter of 5 is copied; an absent
completion counter defaults to 0. -/
theorem usage_counters_defaulted_witness :
    (convertToGeminiResponse
        ⟨[], some ⟨some 5, none, some 7⟩⟩).usageMetadata.promptTokenCount = 5
    ∧ (convertToGeminiResponse
        ⟨[], some ⟨some 5, none, some 7⟩⟩).usageMetadata.candidatesTokenCount = 0 := by
  have h := (usage_counters_defaulted
      ⟨[], some ⟨some 5, none, some 7⟩⟩).1 ⟨some 5, none, some 7⟩ rfl
  exact ⟨h.1 5 rfl, h.2.2.2.1 rfl⟩

/-- Witness for C7: a 40-character translated text counts as 10 tokens. -/
theorem countTokens_ceil_witness :
    countTokens (.str "0123456789012345678901234567890123456789") = 10 := by
  have h := countTokens_ceil (.str "0123456789012345678901234567890123456789")
  have h1 : translatedLength
      (.str "0123456789012345678901234567890123456789") = 40 := by decide
  have h2 := h.2 10 (by rw [h1])
  have h3 := h.1
  rw [h1] at h3
  omega

/-- Witness for C8: the string array `[a, b]` becomes one `user` message
`"a\nb"`. -/
theorem bare_input_shapes_witness :
    convertToOpenAIMessages (.parts [PartU.str "a", PartU.str "b"])
      = [⟨"user", "a\nb"⟩] := by
  have h := (bare_input_shapes "s" ["a", "b"] none []).2.1 (by decide)
  exact h.trans (by decide)

/-- Witness for C9: a provider vector `[1, 2, 3]` comes back as the one
embedding. -/
theorem embed_single_vector_witness :
    embedContent (.str "x") (fun _ => ⟨[⟨[1, 2, 3]⟩]⟩)
      = some { embeddings := [{ values := [1, 2, 3] }] } :=
  (embed_single_vector (.str "x") (fun _ => ⟨[⟨[1, 2, 3]⟩]⟩) ⟨[1, 2, 3]⟩ []).1 rfl

/-- Witness for C10: a Turn of two empty-text parts yields no message. -/
theorem empty_text_part_ignored_witness :
    msgOfContent ⟨"user", some [PartU.obj (some ""), PartU.obj (some "")]⟩
      = [] :=
  (empty_text_part_ignored [] [] "user"
    [PartU.obj (some ""), PartU.obj (some "")] [] []).2.2.1 (by decide)

end OpenAIGen
